import Mathlib

/-!
Verification of the urlShortener core (short-code allocator, URL store access
patterns, and the fixed-window rate limiter) against its natural-language
specification.  The Go source is shallowly embedded: the persistent store is a
list of rows plus a surrogate-key counter, each repository primitive is a pure
function on that state mirroring the SQL statement it wraps, and the service
functions thread the store explicitly.  Randomness (`crypto/rand`) is an
explicit byte stream, wall-clock reads are explicit `Nat` timestamps, and
writes by concurrent callers between two store operations are modelled by an
optional interference list (linearizability: an entry, when present, replaces
the store observed at that store operation; `[]` is a sequential run).
-/

/-! ## Data model (repository.URL, the `urls` table) -/

/-- One row of the `urls` table (repository.URL).  `short_url` is the short
code column, `""` is the unassigned placeholder sentinel.  Timestamps are
abstract `Nat` instants; `last_accessed_at` is `NULL`able. -/
structure URL where
  id : Nat
  long_url : String
  short_url : String
  click_count : Nat
  created_at : Nat
  updated_at : Nat
  last_accessed_at : Option Nat
deriving DecidableEq, Repr

/-- The persistent store: the rows of the `urls` table plus the BIGSERIAL
sequence backing the surrogate key. -/
structure Store where
  rows : List URL
  nextId : Nat
deriving DecidableEq, Repr

/-- Database-level errors the repository can surface.  The two unique
constraints of the migration are named as in
`20251201172222_create_urls_table.sql`; `valueTooLong` is the VARCHAR(10)
overflow error; `badQuery` covers a negative LIMIT/OFFSET. -/
inductive DBErr where
  | uniqueLongUrl
  | uniqueShortUrl
  | valueTooLong
  | badQuery
deriving DecidableEq, Repr

/-! ## Repository primitives (repository package) -/

/-- `Repository.FindExistingShortCode`:
`SELECT short_url FROM urls WHERE long_url = $1 AND short_url != ''`;
`ErrNoRows` is mapped to `("", nil)` by the Go code, hence the `""` default. -/
def FindExistingShortCode (st : Store) (longURL : String) : String :=
  match st.rows.find? (fun r => r.long_url == longURL && r.short_url != "") with
  | none => ""
  | some r => r.short_url

/-- `Repository.InsertURL`:
`INSERT INTO urls (long_url, short_url, updated_at) VALUES ($1, '', NOW()) RETURNING id`.
The insert violates `unique_long_url` when a row with the same `long_url`
exists, and `unique_short_url` when a row with the empty placeholder code
exists (the constraint covers the `''` sentinel like any other value; the
constraints are checked in index-creation order, `unique_long_url` first). -/
def InsertURL (st : Store) (longURL : String) (now : Nat) : Except DBErr (Nat × Store) :=
  if st.rows.any (fun r => r.long_url == longURL) then
    .error .uniqueLongUrl
  else if st.rows.any (fun r => r.short_url == "") then
    .error .uniqueShortUrl
  else
    .ok (st.nextId,
      { rows := st.rows ++ [⟨st.nextId, longURL, "", 0, now, now, none⟩],
        nextId := st.nextId + 1 })

/-- `Repository.UpdateShortCode`:
`UPDATE urls SET short_url = $1, updated_at = NOW() WHERE id = $2`.
The update can violate VARCHAR(10) or `unique_short_url` against another row. -/
def UpdateShortCode (st : Store) (id : Nat) (code : String) (now : Nat) :
    Except DBErr Store :=
  if code.length > 10 then .error .valueTooLong
  else if st.rows.any (fun r => r.id != id && r.short_url == code) then
    .error .uniqueShortUrl
  else
    .ok { st with
          rows := st.rows.map (fun u =>
            if u.id == id then { u with short_url := code, updated_at := now } else u) }

/-- `Repository.IsShortCodeUnique`:
`SELECT EXISTS (SELECT 1 FROM urls WHERE short_url = $1)`, negated. -/
def IsShortCodeUnique (st : Store) (code : String) : Bool :=
  !(st.rows.any (fun r => r.short_url == code))

/-- The per-row effect of `LookupAndTrack`'s UPDATE clause. -/
def trackRow (u : URL) (now : Nat) : URL :=
  { u with click_count := u.click_count + 1,
           last_accessed_at := some now,
           updated_at := now }

/-- `Repository.LookupAndTrack`:
`UPDATE urls SET click_count = click_count + 1, last_accessed_at = NOW(),
updated_at = NOW() WHERE short_url = $1 RETURNING long_url`.
All rows matching the code are updated in one atomic statement; the scan of
the RETURNING set reads the first matching row's `long_url`.  `none` models
`sql.ErrNoRows`. -/
def LookupAndTrack (st : Store) (shortCode : String) (now : Nat) :
    Option (String × Store) :=
  match st.rows.find? (fun r => r.short_url == shortCode) with
  | none => none
  | some r =>
      some (r.long_url,
        { st with rows := st.rows.map (fun u =>
            if u.short_url == shortCode then trackRow u now else u) })

/-- `Repository.GetTotalURLCount`: `SELECT COUNT(id) FROM urls`. -/
def GetTotalURLCount (st : Store) : Nat := st.rows.length

/-- `ORDER BY created_at DESC`, newest first. -/
def createdDesc (a b : URL) : Prop := b.created_at ≤ a.created_at

instance : DecidableRel createdDesc := fun a b =>
  inferInstanceAs (Decidable (b.created_at ≤ a.created_at))

instance : IsTotal URL createdDesc :=
  ⟨fun a b => (Nat.le_total b.created_at a.created_at)⟩

instance : IsTrans URL createdDesc :=
  ⟨fun _ _ _ hab hbc => Nat.le_trans hbc hab⟩

/-- `Repository.ListURLs`:
`SELECT ... FROM urls ORDER BY created_at DESC LIMIT $1 OFFSET $2`.
PostgreSQL rejects a negative LIMIT or OFFSET. -/
def RepoListURLs (st : Store) (limit offset : Int) : Except DBErr (List URL) :=
  if limit < 0 || offset < 0 then .error .badQuery
  else .ok (((st.rows.insertionSort createdDesc).drop offset.toNat).take limit.toNat)

/-! ## Model of Go `net/url.ParseRequestURI`

The service validates the long URL with `url.ParseRequestURI(longURL)` and only
uses whether it returns an error.  The predicate below follows
`net/url.parse(rawURL, viaRequest := true)`: it rejects control bytes, the
empty string, a `:` before any scheme character, a scheme-less string that is
not path-absolute, an invalid authority (userinfo charset, host brackets,
optional port, the host-mode raw-character and %-escape rules with RFC 6874
zone handling) and malformed %-escapes in the path, and it
accepts `"*"` (HTTP asterisk-form), every absolute URI (opaque or with
authority) and every path-absolute string. -/

/-- Go `stringContainsCTLByte` (bytes below 0x20 or 0x7f; on non-ASCII
characters every UTF-8 byte is `≥ 0x80`, so the check is per character). -/
def containsCTLByte (s : String) : Bool :=
  s.toList.any (fun c => c.toNat < 0x20 || c.toNat == 0x7f)

def isAlphaChar (c : Char) : Bool :=
  ('a' ≤ c && c ≤ 'z') || ('A' ≤ c && c ≤ 'Z')

def isDigitChar (c : Char) : Bool := '0' ≤ c && c ≤ '9'

def isHexChar (c : Char) : Bool :=
  isDigitChar c || ('a' ≤ c && c ≤ 'f') || ('A' ≤ c && c ≤ 'F')

/-- Numeric value of a hex digit (Go `unhex`). -/
def unhexVal (c : Char) : Nat :=
  if isDigitChar c then c.toNat - '0'.toNat
  else if 'a' ≤ c && c ≤ 'f' then c.toNat - 'a'.toNat + 10
  else if 'A' ≤ c && c ≤ 'F' then c.toNat - 'A'.toNat + 10
  else 0

/-- Go `getScheme`: scan for `scheme:`; `.error` is the ":" -at-position-0
case, otherwise the split `(scheme, rest)` (empty scheme when the prefix is
not a valid scheme). -/
def getSchemeAux (raw : List Char) : List Char → Nat → Except Unit (List Char × List Char)
  | [], _ => .ok ([], raw)
  | c :: cs, i =>
    if isAlphaChar c then getSchemeAux raw cs (i + 1)
    else if isDigitChar c || c == '+' || c == '-' || c == '.' then
      if i == 0 then .ok ([], raw) else getSchemeAux raw cs (i + 1)
    else if c == ':' then
      if i == 0 then .error () else .ok (raw.take i, raw.drop (i + 1))
    else .ok ([], raw)

def getScheme (raw : List Char) : Except Unit (List Char × List Char) :=
  getSchemeAux raw raw 0

/-- Go `split(s, sep, cutc)`: cut at the first occurrence of `sep`. -/
def splitOnFirst : List Char → Char → Bool → List Char × List Char
  | [], _, _ => ([], [])
  | c :: cs, sep, cutc =>
    if c == sep then (if cutc then ([], cs) else ([], c :: cs))
    else
      let p := splitOnFirst cs sep cutc
      (c :: p.1, p.2)

/-- Validity of %-escapes as in Go `unescape` for the path and userinfo
modes: each `%` must introduce a two-digit hex escape (these modes impose no
raw-character restriction during parsing). -/
def escapesOk : List Char → Bool
  | [] => true
  | '%' :: rest =>
    match rest with
    | a :: b :: t => isHexChar a && isHexChar b && escapesOk t
    | _ => false
  | _ :: t => escapesOk t

/-- Go `validOptionalPort`. -/
def validOptionalPort : List Char → Bool
  | [] => true
  | ':' :: ds => ds.all isDigitChar
  | _ => false

/-- Index of the last occurrence of `c` (Go `strings.LastIndex` on one byte). -/
def lastIndexOf (l : List Char) (c : Char) : Option Nat :=
  ((l.enum.filter (fun p => p.2 == c)).getLast?).map (fun p => p.1)

/-- Raw characters Go `shouldEscape(c, encodeHost)` permits unescaped in a
host: alphanumerics, the host sub-delims set (with `:`, brackets and `<`,
`>`, `\x22`), and the RFC 3986 unreserved marks. -/
def isHostAllowedChar (c : Char) : Bool :=
  isAlphaChar c || isDigitChar c ||
  ['!', '$', '&', '\'', '(', ')', '*', '+', ',', ';', '=', ':', '[', ']',
    '<', '>', '\x22', '-', '_', '.', '~'].contains c

/-- The byte value of a two-digit hex escape. -/
def unhexByte (a b : Char) : Nat := unhexVal a * 16 + unhexVal b

/-- Go `shouldEscape(v, encodeHost)` on a byte value (bytes `≥ 0x80` always
need escaping there). -/
def shouldEscapeHostByte (v : Nat) : Bool :=
  if v < 0x80 then !(isHostAllowedChar (Char.ofNat v)) else true

/-- Go `unescape(s, encodeHost)` success: every `%` introduces a two-digit
hex escape and may only escape a non-ASCII byte (high nibble `≥ 8`) or be
`%25`; every raw ASCII character must be in the allowed host set (non-ASCII
characters, whose UTF-8 bytes are all `≥ 0x80`, pass the byte-level check). -/
def unescapeHostOk : List Char → Bool
  | [] => true
  | '%' :: rest =>
    match rest with
    | a :: b :: t =>
        isHexChar a && isHexChar b &&
        (!(decide (unhexVal a < 8)) || (a == '2' && b == '5')) &&
        unescapeHostOk t
    | _ => false
  | c :: t => (decide (0x80 ≤ c.toNat) || isHostAllowedChar c) && unescapeHostOk t

/-- Go `unescape(s, encodeZone)` success (RFC 6874 zone identifiers): an
escape must be `%25`, `%20`, or escape a byte that is itself a valid raw
host byte; raw characters follow the host rule. -/
def unescapeZoneOk : List Char → Bool
  | [] => true
  | '%' :: rest =>
    match rest with
    | a :: b :: t =>
        isHexChar a && isHexChar b &&
        ((a == '2' && b == '5') || decide (unhexByte a b = 32) ||
          !(shouldEscapeHostByte (unhexByte a b))) &&
        unescapeZoneOk t
    | _ => false
  | c :: t => (decide (0x80 ≤ c.toNat) || isHostAllowedChar c) && unescapeZoneOk t

/-- Index of the first occurrence of the substring `%25`
(Go `strings.Index(s, "%25")`). -/
def indexOfPct25 : List Char → Option Nat
  | '%' :: '2' :: '5' :: _ => some 0
  | _ :: t => (indexOfPct25 t).map (· + 1)
  | [] => none

/-- Go `parseHost` (success only): a bracketed IP-literal validates its
optional port after the last `]` and, when an RFC 6874 `%25` zone marker is
present before the `]`, checks the pre-zone part and the bracket/port tail
in host mode and the zone in zone mode; otherwise — and for every
non-bracketed host — the whole host (port included) goes through the
host-mode check. -/
def parseHostOk (host : List Char) : Bool :=
  if host.head? == some '[' then
    match lastIndexOf host ']' with
    | none => false
    | some i =>
      validOptionalPort (host.drop (i + 1)) &&
      (match indexOfPct25 (host.take i) with
       | some z =>
         unescapeHostOk (host.take z) &&
         unescapeZoneOk ((host.take i).drop z) &&
         unescapeHostOk (host.drop i)
       | none => unescapeHostOk host)
  else
    match lastIndexOf host ':' with
    | none => unescapeHostOk host
    | some i => validOptionalPort (host.drop i) && unescapeHostOk host

/-- Go `validUserinfo` character set. -/
def validUserinfoChar (c : Char) : Bool :=
  isAlphaChar c || isDigitChar c ||
  ['-', '.', '_', ':', '~', '!', '$', '&', '\'', '(', ')', '*', '+', ',', ';',
    '=', '%', '@'].contains c

/-- Go `parseAuthority` (success only): split userinfo at the last `@`,
validate the host and the userinfo charset and escapes. -/
def parseAuthorityOk (authority : List Char) : Bool :=
  match lastIndexOf authority '@' with
  | none => parseHostOk authority
  | some i =>
      parseHostOk (authority.drop (i + 1)) &&
      (authority.take i).all validUserinfoChar &&
      escapesOk (authority.take i)

/-- Whether Go `url.ParseRequestURI` succeeds (`parse` with
`viaRequest = true`); the service only branches on this. -/
def parseRequestURIOk (rawURL : String) : Bool :=
  if containsCTLByte rawURL then false
  else if rawURL == "" then false
  else if rawURL == "*" then true
  else
    match getScheme rawURL.toList with
    | .error _ => false
    | .ok (scheme, rest0) =>
      let rest :=
        if rest0.getLast? == some '?' && !(rest0.dropLast.contains '?') then
          rest0.dropLast
        else (splitOnFirst rest0 '?' true).1
      match rest with
      | '/' :: rest1 =>
        if scheme != [] && rest1.head? == some '/' then
          let p := splitOnFirst (rest1.drop 1) '/' false
          parseAuthorityOk p.1 && escapesOk p.2
        else escapesOk ('/' :: rest1)
      | _ => scheme != []

/-! ## Service layer (service package) -/

/-- The service's error outcomes, one constructor per distinct error the Go
code can return: "invalid URL format", "service capacity exhausted",
"internal error: generated code exceeds max length", "code generation failed"
(entropy read failure), "short code not found", and repository errors
surfaced unchanged.  The Go code's
`strings.Contains(err.Error(), "unique_long_url")` test corresponds to
matching `DBErr.uniqueLongUrl`, since that constraint name appears in exactly
that error's message. -/
inductive SvcErr where
  | invalidInput
  | capacityExhausted
  | codeTooLong
  | genFailed
  | notFound
  | storeErr (e : DBErr)
deriving DecidableEq, Repr

/-- Audit trace of the repository operations a service call performs, in
order (used to state "no store access" and "consumes no new random code"). -/
inductive RepoOp where
  | findExisting (longURL : String)
  | insert (longURL : String)
  | isUnique (code : String)
  | updateCode (id : Nat) (code : String)
deriving DecidableEq, Repr

/-- service.Service configuration (the repository handle is passed as the
explicit `Store` state instead). -/
structure Service where
  MaxRetries : Nat
  DesiredLength : Nat
deriving DecidableEq, Repr

def MaxShortCodeLength : Nat := 10

def Base62Alphabet : String :=
  "0123456789abcdefghijklmnopqrstuvwxyzABCDEFGHIJKLMNOPQRSTUVWXYZ"

def base62Chars : List Char := Base62Alphabet.toList

/-- `Base62Alphabet[int(b)%alphabetLength]`: map one random byte to the
alphabet via modulo (the default is never reached: the index is below the
alphabet length). -/
def base62Char (b : Nat) : Char :=
  base62Chars.getD (b % base62Chars.length) '0'

/-- `service.generateRandomCode`: draw `length` bytes from the entropy
stream and map each through `base62Char`; `none` models an `io.ReadFull`
failure (the stream cannot supply `length` bytes). -/
def generateRandomCode (length : Nat) (entropy : List Nat) :
    Option (String × List Nat) :=
  if entropy.length < length then none
  else some (String.mk ((entropy.take length).map base62Char), entropy.drop length)

/-- `desiredLen` with the `CreateShortURL` default (0 means
`MaxShortCodeLength`, i.e. 10). -/
def effDesiredLength (s : Service) : Nat :=
  if s.DesiredLength = 0 then MaxShortCodeLength else s.DesiredLength

/-- `maxRetries` with the `CreateShortURL` default (0 means 5). -/
def effMaxRetries (s : Service) : Nat :=
  if s.MaxRetries = 0 then 5 else s.MaxRetries

/-- Observe the store before a store operation: the next interference entry,
when present, replaces the store (a concurrent caller's writes committed
before this operation); `none` or an exhausted list leaves it unchanged. -/
def obs : Store → List (Option Store) → Store × List (Option Store)
  | st, [] => (st, [])
  | st, none :: t => (st, t)
  | _, some s :: t => (s, t)

deriving instance DecidableEq for Except

/-- Result of one `CreateShortURL` call: the returned `(code, error)` pair,
the final store, the unconsumed interference and entropy, and the audit
trace of repository operations performed. -/
structure CreateResult where
  outcome : Except SvcErr String
  store : Store
  interf : List (Option Store)
  entropy : List Nat
  ops : List RepoOp
deriving DecidableEq, Repr

inductive LoopOutcome where
  | found (code : String)
  | exhausted
  | genFailed
deriving DecidableEq, Repr

structure LoopState where
  store : Store
  interf : List (Option Store)
  entropy : List Nat
  ops : List RepoOp
deriving DecidableEq, Repr

/-- The collision-retry loop of `CreateShortURL`: up to the given number of
attempts, generate a candidate and ask the store whether it is unique; stop
at the first unique candidate, report exhaustion otherwise (the 10ms backoff
sleep has no observable effect in the model). -/
def retryLoop (desiredLen : Nat) : Nat → LoopState → LoopOutcome × LoopState
  | 0, ls => (.exhausted, ls)
  | n + 1, ls =>
    match generateRandomCode desiredLen ls.entropy with
    | none => (.genFailed, ls)
    | some p =>
      let o := obs ls.store ls.interf
      let ls' : LoopState := ⟨o.1, o.2, p.2, ls.ops ++ [.isUnique p.1]⟩
      if IsShortCodeUnique o.1 p.1 then (.found p.1, ls')
      else retryLoop desiredLen n ls'

/-- `service.CreateShortURL`: validate, idempotency lookup, placeholder
insert (with the `unique_long_url`-conflict fallback to a re-lookup),
collision-retry code generation, length guard, finalizing update. -/
def CreateShortURL (cfg : Service) (st : Store) (interf : List (Option Store))
    (entropy : List Nat) (now : Nat) (longURL : String) : CreateResult :=
  let desiredLen := effDesiredLength cfg
  let maxRetries := effMaxRetries cfg
  if !parseRequestURIOk longURL then
    ⟨.error .invalidInput, st, interf, entropy, []⟩
  else
    let o1 := obs st interf
    let existing := FindExistingShortCode o1.1 longURL
    if existing != "" then
      ⟨.ok existing, o1.1, o1.2, entropy, [.findExisting longURL]⟩
    else
      let o2 := obs o1.1 o1.2
      match InsertURL o2.1 longURL now with
      | .error e =>
        if e = DBErr.uniqueLongUrl then
          let o3 := obs o2.1 o2.2
          ⟨.ok (FindExistingShortCode o3.1 longURL), o3.1, o3.2, entropy,
            [.findExisting longURL, .insert longURL, .findExisting longURL]⟩
        else
          ⟨.error (.storeErr e), o2.1, o2.2, entropy,
            [.findExisting longURL, .insert longURL]⟩
      | .ok ins =>
        let lr := retryLoop desiredLen maxRetries
          ⟨ins.2, o2.2, entropy, [.findExisting longURL, .insert longURL]⟩
        match lr.1 with
        | .genFailed =>
          ⟨.error .genFailed, lr.2.store, lr.2.interf, lr.2.entropy, lr.2.ops⟩
        | .exhausted =>
          ⟨.error .capacityExhausted, lr.2.store, lr.2.interf, lr.2.entropy, lr.2.ops⟩
        | .found code =>
          if code.length > MaxShortCodeLength then
            ⟨.error .codeTooLong, lr.2.store, lr.2.interf, lr.2.entropy, lr.2.ops⟩
          else
            let o4 := obs lr.2.store lr.2.interf
            match UpdateShortCode o4.1 ins.1 code now with
            | .error e =>
              ⟨.error (.storeErr e), o4.1, o4.2, lr.2.entropy,
                lr.2.ops ++ [.updateCode ins.1 code]⟩
            | .ok st3 =>
              ⟨.ok code, st3, o4.2, lr.2.entropy,
                lr.2.ops ++ [.updateCode ins.1 code]⟩

/-- `service.GetLongURL`: one atomic `LookupAndTrack`; `sql.ErrNoRows` is
mapped to the "short code not found" error. -/
def GetLongURL (st : Store) (now : Nat) (shortCode : String) :
    Except SvcErr String × Store :=
  match LookupAndTrack st shortCode now with
  | none => (.error .notFound, st)
  | some p => (.ok p.1, p.2)

/-- service.URLListResponse. -/
structure URLListResponse where
  URLs : List URL
  TotalCount : Int
  Page : Int
  Limit : Int
  TotalPages : Int
deriving DecidableEq, Repr

/-- `service.ListURLs`: count, compute offset and total pages, floor the
page count at 1, clamp an out-of-range page to the last page, fetch the
page.  Arithmetic is on `Int` as in Go (all values reaching a division are
non-negative, where Go and Lean division agree).  Go updates the local
`page`/`offset`/`totalPages` variables in an if/else-if chain and then
performs the single fetch; the chain is unrolled here with the fetch inlined
per branch, with identical effect. -/
def ServiceListURLs (st : Store) (page limit : Int) :
    Except DBErr URLListResponse :=
  let totalCount : Int := (GetTotalURLCount st : Nat)
  let offset := (page - 1) * limit
  let totalPages := (totalCount + limit - 1) / limit
  if totalPages = 0 then
    match RepoListURLs st limit offset with
    | .error e => .error e
    | .ok urls => .ok ⟨urls, totalCount, page, limit, 1⟩
  else if page > totalPages then
    match RepoListURLs st limit ((totalPages - 1) * limit) with
    | .error e => .error e
    | .ok urls => .ok ⟨urls, totalCount, totalPages, limit, totalPages⟩
  else
    match RepoListURLs st limit offset with
    | .error e => .error e
    | .ok urls => .ok ⟨urls, totalCount, page, limit, totalPages⟩

/-! ## HTTP handler layer (handler package) -/

/-- `handler.ListURLs` page parameter: `strconv.Atoi` failure (absent or
non-numeric query value, modelled by `none`) or a value below 1 falls back
to 1. -/
def normPage : Option Int → Int
  | none => 1
  | some p => if p < 1 then 1 else p

/-- `handler.ListURLs` limit parameter: defaults to 10 the same way. -/
def normLimit : Option Int → Int
  | none => 10
  | some l => if l < 1 then 10 else l

/-- `handler.ListURLs`: normalize the query parameters, call the service,
and render each short code prefixed with the service domain. -/
def HandlerListURLs (st : Store) (domain : String) (pageQ limitQ : Option Int) :
    Except DBErr URLListResponse :=
  match ServiceListURLs st (normPage pageQ) (normLimit limitQ) with
  | .error e => .error e
  | .ok resp =>
    .ok { resp with
          URLs := resp.URLs.map (fun u => { u with short_url := domain ++ u.short_url }) }

/-- The observable outcome of `handler.Redirect`: a 302 redirect to the long
URL, a 404, or a 500. -/
inductive HandlerResp where
  | redirect (location : String)
  | notFoundResp
  | internalError
deriving DecidableEq, Repr

/-- `handler.Redirect`: an empty code parameter is answered 404 without
calling the service; otherwise the service resolves the code, "short code
not found" becomes 404 and any other error 500. -/
def Redirect (st : Store) (now : Nat) (code : String) : HandlerResp × Store :=
  if code == "" then (.notFoundResp, st)
  else
    match GetLongURL st now code with
    | (.ok longURL, st') => (.redirect longURL, st')
    | (.error .notFound, st') => (.notFoundResp, st')
    | (.error _, st') => (.internalError, st')

/-! ## Rate limiter (middleware package) -/

def MaxRequestsPerIP : Nat := 20

/-- `WindowDuration = 60 * time.Second`, in seconds. -/
def WindowDuration : Nat := 60

/-- middleware.ipAccess. -/
structure IpAccess where
  Count : Nat
  WindowEnd : Nat
deriving DecidableEq, Repr

/-- The in-memory `rateLimitStore` map (Go map, modelled as an association
list; the mutex serializes calls, so each call sees the previous call's
state). -/
abbrev RLStore := List (String × IpAccess)

def rlLookup : RLStore → String → Option IpAccess
  | [], _ => none
  | (k, v) :: t, ip => if k == ip then some v else rlLookup t ip

def rlSet : RLStore → String → IpAccess → RLStore
  | [], ip, a => [(ip, a)]
  | (k, v) :: t, ip, a =>
    if k == ip then (ip, a) :: t else (k, v) :: rlSet t ip a

/-- `middleware.CheckAndIncrementAccess`: fresh window (count 1, end
`now + 60`) when no window exists or `now` is strictly past the window end;
increment and admit while the count is below 20; otherwise reject without
writing. -/
def CheckAndIncrementAccess (store : RLStore) (ip : String) (now : Nat) :
    Bool × RLStore :=
  match rlLookup store ip with
  | none => (true, rlSet store ip ⟨1, now + WindowDuration⟩)
  | some access =>
    if now > access.WindowEnd then
      (true, rlSet store ip ⟨1, now + WindowDuration⟩)
    else if access.Count < MaxRequestsPerIP then
      (true, rlSet store ip ⟨access.Count + 1, access.WindowEnd⟩)
    else
      (false, store)

/-- What `middleware.RateLimiterMiddleware` makes observable for one
request: whether it passed the request on, and on rejection the
`Retry-After` header value and the 429 status. -/
structure MWDecision where
  allowed : Bool
  retryAfter : Option String
  status : Option Nat
deriving DecidableEq, Repr

/-- `middleware.RateLimiterMiddleware` for one request from `ip` at `now`. -/
def RateLimiterMiddleware (store : RLStore) (ip : String) (now : Nat) :
    MWDecision × RLStore :=
  match CheckAndIncrementAccess store ip now with
  | (true, store') => (⟨true, none, none⟩, store')
  | (false, store') => (⟨false, some "60", some 429⟩, store')

/-- A sequence of requests from the same client at the given instants,
through the middleware. -/
def runLimiter (ip : String) : RLStore → List Nat → List MWDecision × RLStore
  | store, [] => ([], store)
  | store, t :: ts =>
    let r := RateLimiterMiddleware store ip t
    let rest := runLimiter ip r.2 ts
    (r.1 :: rest.1, rest.2)

/-! ## Iteration helpers used by the claims -/

/-- `n` successive `CreateShortURL` calls for the same long URL (sequential,
no interference), returning the final store and each call's outcome. -/
def createCalls (cfg : Service) (entropy : List Nat) (now : Nat)
    (longURL : String) : Store → Nat → Store × List (Except SvcErr String)
  | st, 0 => (st, [])
  | st, n + 1 =>
    let r := CreateShortURL cfg st [] entropy now longURL
    let rest := createCalls cfg entropy now longURL r.store n
    (rest.1, r.outcome :: rest.2)

/-- Successive `GetLongURL` resolutions of one code at the given instants. -/
def resolveCalls (code : String) : Store → List Nat →
    List (Except SvcErr String) × Store
  | st, [] => ([], st)
  | st, t :: ts =>
    let r := GetLongURL st t code
    let rest := resolveCalls code r.2 ts
    (r.1 :: rest.1, rest.2)

/-- The cumulative effect of resolving a row at each instant in `ts`. -/
def applyTracks (u : URL) (ts : List Nat) : URL :=
  ts.foldl trackRow u

/-- The `k`-th candidate code the retry loop derives from the entropy
stream. -/
def candidate (desiredLen : Nat) (entropy : List Nat) (k : Nat) : String :=
  String.mk (((entropy.drop (k * desiredLen)).take desiredLen).map base62Char)

/-! ## Spec-side definition for the validation claim -/

/-- Modelled from the spec: a "syntactically well-formed absolute URL"
(section 4.2 step 1).  Following RFC 3986, an absolute URL starts with a
non-empty scheme — a letter followed by letters, digits, `+`, `-` or `.` —
terminated by `:`.  This is deliberately the spec's notion, to be compared
with what the code's validator accepts. -/
def isAbsoluteURLSpec (s : String) : Bool :=
  let p := splitOnFirst s.toList ':' true
  s.toList.contains ':' &&
  p.1 ≠ [] &&
  isAlphaChar (p.1.headD 'a') &&
  p.1.all (fun c => isAlphaChar c || isDigitChar c || c == '+' || c == '-' || c == '.')

/-! ## Store invariants (the table's unique constraints) -/

/-- The `unique_long_url` constraint: no two rows share a `long_url`. -/
def longUrlsUnique (st : Store) : Prop :=
  st.rows.Pairwise (fun a b => a.long_url ≠ b.long_url)

/-- The `unique_short_url` constraint: no two rows share a `short_url`
(the empty placeholder value included). -/
def shortCodesUnique (st : Store) : Prop :=
  st.rows.Pairwise (fun a b => a.short_url ≠ b.short_url)

/-- Well-formedness of the codes stored in non-placeholder rows: 1–10
characters over the 62-symbol alphabet (established by the allocator, which
only ever assigns generated codes of a checked length). -/
def storeCodesWF (st : Store) : Prop :=
  ∀ x ∈ st.rows, x.short_url ≠ "" →
    1 ≤ x.short_url.length ∧ x.short_url.length ≤ 10 ∧
    ∀ c ∈ x.short_url.data, c ∈ base62Chars

/-! ## Helper lemmas -/

instance (st : Store) : Decidable (longUrlsUnique st) :=
  inferInstanceAs (Decidable (st.rows.Pairwise _))

instance (st : Store) : Decidable (shortCodesUnique st) :=
  inferInstanceAs (Decidable (st.rows.Pairwise _))

@[simp] theorem obs_nil (st : Store) : obs st [] = (st, []) := rfl

@[simp] theorem obs_none (st : Store) (t : List (Option Store)) :
    obs st (none :: t) = (st, t) := rfl

@[simp] theorem obs_some (st s : Store) (t : List (Option Store)) :
    obs st (some s :: t) = (s, t) := rfl

theorem find?_of_longUrl {l : List URL} {r : URL} {L : String}
    (hu : l.Pairwise (fun a b => a.long_url ≠ b.long_url))
    (hmem : r ∈ l) (hL : r.long_url = L) (hcode : r.short_url ≠ "") :
    l.find? (fun x => x.long_url == L && x.short_url != "") = some r := by
  induction l with
  | nil => cases hmem
  | cons x t ih =>
    rcases List.mem_cons.mp hmem with hx | hx
    · subst hx
      exact List.find?_cons_of_pos _ (by simp [hL, hcode])
    · have hxr : x.long_url ≠ r.long_url := (List.pairwise_cons.mp hu).1 r hx
      have hxL : x.long_url ≠ L := hL ▸ hxr
      rw [List.find?_cons_of_neg _ (by simp [hxL])]
      exact ih (List.pairwise_cons.mp hu).2 hx

theorem find?_of_shortUrl {l : List URL} {r : URL} {C : String}
    (hu : l.Pairwise (fun a b => a.short_url ≠ b.short_url))
    (hmem : r ∈ l) (hC : r.short_url = C) :
    l.find? (fun x => x.short_url == C) = some r := by
  induction l with
  | nil => cases hmem
  | cons x t ih =>
    rcases List.mem_cons.mp hmem with hx | hx
    · subst hx
      exact List.find?_cons_of_pos _ (by simp [hC])
    · have hxr : x.short_url ≠ r.short_url := (List.pairwise_cons.mp hu).1 r hx
      have hxC : x.short_url ≠ C := hC ▸ hxr
      rw [List.find?_cons_of_neg _ (by simp [hxC])]
      exact ih (List.pairwise_cons.mp hu).2 hx

theorem FindExistingShortCode_eq {st : Store} {r : URL} {L : String}
    (hu : longUrlsUnique st) (hmem : r ∈ st.rows) (hL : r.long_url = L)
    (hcode : r.short_url ≠ "") :
    FindExistingShortCode st L = r.short_url := by
  rw [FindExistingShortCode, find?_of_longUrl hu hmem hL hcode]

theorem FindExistingShortCode_empty {st : Store} {L : String}
    (h : ∀ x ∈ st.rows, x.long_url = L → x.short_url = "") :
    FindExistingShortCode st L = "" := by
  rw [FindExistingShortCode, List.find?_eq_none.mpr]
  intro x hx
  by_cases hxL : x.long_url = L <;> simp [hxL, h x hx]

theorem base62Chars_length : base62Chars.length = 62 := by decide

theorem base62Char_mem (b : Nat) : base62Char b ∈ base62Chars := by
  have h : b % base62Chars.length < base62Chars.length := by
    rw [base62Chars_length]; exact Nat.mod_lt _ (by omega)
  rw [base62Char, List.getD_eq_getElem?_getD, List.getElem?_eq_getElem h]
  exact List.getElem_mem _

theorem effDesiredLength_pos (cfg : Service) : 0 < effDesiredLength cfg := by
  rw [effDesiredLength]
  split
  · rw [MaxShortCodeLength]; omega
  · omega

/-! ## C6 — input validation -/

/-- C6 (amended): every input string rejected by the validator (Go
`url.ParseRequestURI`) is answered with `InvalidInput`, with no store
operation performed, no store change, and no randomness consumed. -/
theorem createShortURL_invalid_input (cfg : Service) (st : Store)
    (interf : List (Option Store)) (entropy : List Nat) (now : Nat) (s : String)
    (hrej : parseRequestURIOk s = false) :
    CreateShortURL cfg st interf entropy now s =
      ⟨.error .invalidInput, st, interf, entropy, []⟩ := by
  simp [CreateShortURL, hrej]

/-- Witness for `createShortURL_invalid_input` at a malformed input. -/
theorem createShortURL_invalid_input_witness :
    parseRequestURIOk "not a url" = false ∧
    CreateShortURL ⟨0, 0⟩ ⟨[], 1⟩ [] [] 0 "not a url" =
      ⟨.error .invalidInput, ⟨[], 1⟩, [], [], []⟩ :=
  ⟨by decide, createShortURL_invalid_input ⟨0, 0⟩ ⟨[], 1⟩ [] [] 0 "not a url" (by decide)⟩

/-- C6 counterexample: `"*"` is not a syntactically well-formed absolute URL
(it has no scheme), yet `url.ParseRequestURI` accepts it (the HTTP
asterisk-form special case), so `createShortURL("*")` does not fail with
`InvalidInput` and does access the store — here it even creates a mapping. -/
theorem createShortURL_accepts_asterisk :
    isAbsoluteURLSpec "*" = false ∧
    parseRequestURIOk "*" = true ∧
    (CreateShortURL ⟨0, 0⟩ ⟨[], 1⟩ [] (List.replicate 10 0) 0 "*").outcome =
      .ok "0000000000" ∧
    (CreateShortURL ⟨0, 0⟩ ⟨[], 1⟩ [] (List.replicate 10 0) 0 "*").ops ≠ [] := by
  refine ⟨by decide, by decide, ?_, ?_⟩ <;> decide

/-! ## C9 — the uniqueness constraint covers the empty placeholder -/

/-- C9: `unique_short_url` also covers the empty placeholder value: a
successful placeholder insert requires that no empty-code row existed and
leaves exactly one; and while an orphan (empty-code) row exists, creation of
any new long URL fails at the placeholder insert with the
`unique_short_url` store error, surfaced as fatal (the fallback only
recognizes `unique_long_url`). -/
theorem createShortURL_orphan_blocks_insert (cfg : Service) (st : Store)
    (entropy : List Nat) (now : Nat) (L : String) (orphan : URL)
    (hvalid : parseRequestURIOk L = true)
    (ho : orphan ∈ st.rows) (hoc : orphan.short_url = "")
    (hnew : ∀ x ∈ st.rows, x.long_url ≠ L) :
    CreateShortURL cfg st [] entropy now L =
      ⟨.error (.storeErr .uniqueShortUrl), st, [], entropy,
        [.findExisting L, .insert L]⟩ ∧
    ∀ (st' : Store) (L' : String) (now' : Nat) (res : Nat × Store),
      InsertURL st' L' now' = .ok res →
      st'.rows.countP (fun x => x.short_url == "") = 0 ∧
      res.2.rows.countP (fun x => x.short_url == "") = 1 := by
  constructor
  · have hfind : FindExistingShortCode st L = "" :=
      FindExistingShortCode_empty (fun x hx hL => absurd hL (hnew x hx))
    have hins : InsertURL st L now = .error .uniqueShortUrl := by
      rw [InsertURL, if_neg, if_pos]
      · exact List.any_eq_true.mpr ⟨orphan, ho, by simp [hoc]⟩
      · simp only [List.any_eq_true, not_exists, not_and]
        intro x hx
        simp [hnew x hx]
    simp [CreateShortURL, hvalid, hfind, hins]
  · intro st' L' now' res hok
    rw [InsertURL] at hok
    by_cases h1 : (st'.rows.any fun r => r.long_url == L') = true
    · rw [if_pos h1] at hok; cases hok
    · rw [if_neg h1] at hok
      by_cases h2 : (st'.rows.any fun r => r.short_url == "") = true
      · rw [if_pos h2] at hok; cases hok
      · rw [if_neg h2] at hok
        have hz : st'.rows.countP (fun x => x.short_url == "") = 0 :=
          List.countP_eq_zero.mpr (fun x hx hxc => h2 (List.any_eq_true.mpr ⟨x, hx, hxc⟩))
        cases hok
        exact ⟨hz, by simp [List.countP_append, List.countP_cons, hz]⟩

/-- Witness for `createShortURL_orphan_blocks_insert`: an orphan placeholder
row blocks the insert of a fresh long URL. -/
theorem createShortURL_orphan_blocks_insert_witness :
    parseRequestURIOk "http://b" = true ∧
    CreateShortURL ⟨0, 0⟩ ⟨[⟨1, "http://a", "", 0, 0, 0, none⟩], 2⟩ [] [] 0 "http://b" =
      ⟨.error (.storeErr .uniqueShortUrl), ⟨[⟨1, "http://a", "", 0, 0, 0, none⟩], 2⟩, [], [],
        [.findExisting "http://b", .insert "http://b"]⟩ :=
  ⟨by decide,
   (createShortURL_orphan_blocks_insert ⟨0, 0⟩ ⟨[⟨1, "http://a", "", 0, 0, 0, none⟩], 2⟩ [] 0
      "http://b" ⟨1, "http://a", "", 0, 0, 0, none⟩ (by decide) (by decide) rfl
      (by decide)).1⟩

/-! ## C10 — resolving the empty code -/

/-- C10: at the service interface, resolving `""` is not rejected while a
placeholder row exists: `getLongURL("")` matches that row, returns its
`long_url` and increments its `click_count`; the empty-code guard exists
only in the HTTP handler, which answers 404 without touching the service or
the store. -/
theorem getLongURL_empty_code (st : Store) (now : Nat) (r : URL)
    (huniq : shortCodesUnique st) (hmem : r ∈ st.rows) (hc : r.short_url = "") :
    GetLongURL st now "" =
      (.ok r.long_url,
       ⟨st.rows.map (fun u => if u.short_url == "" then trackRow u now else u),
        st.nextId⟩) ∧
    (trackRow r now).click_count = r.click_count + 1 ∧
    ∀ (st' : Store) (now' : Nat), Redirect st' now' "" = (.notFoundResp, st') := by
  have hfind : st.rows.find? (fun x => x.short_url == "") = some r :=
    find?_of_shortUrl huniq hmem hc
  refine ⟨?_, rfl, fun st' now' => by simp [Redirect]⟩
  simp [GetLongURL, LookupAndTrack, hfind]

/-- Witness for `getLongURL_empty_code` on a one-orphan store. -/
theorem getLongURL_empty_code_witness :
    GetLongURL ⟨[⟨1, "http://a", "", 0, 0, 0, none⟩], 2⟩ 7 "" =
      (.ok "http://a", ⟨[⟨1, "http://a", "", 1, 0, 7, some 7⟩], 2⟩) ∧
    Redirect ⟨[⟨1, "http://a", "", 0, 0, 0, none⟩], 2⟩ 7 "" =
      (.notFoundResp, ⟨[⟨1, "http://a", "", 0, 0, 0, none⟩], 2⟩) := by
  have h := getLongURL_empty_code ⟨[⟨1, "http://a", "", 0, 0, 0, none⟩], 2⟩ 7
    ⟨1, "http://a", "", 0, 0, 0, none⟩ (by decide) (by decide) rfl
  exact ⟨h.1, h.2.2 _ 7⟩

/-! ## C1 — idempotent creation -/

/-- C1: for a valid long URL whose row already carries a non-empty code,
every `createShortURL` call returns that code, performs exactly the one
idempotency lookup (no insert), leaves the store unchanged and consumes no
randomness — hence any number of repeated calls all return the same code
against the same store. -/
theorem createShortURL_idempotent (cfg : Service) (st : Store) (entropy : List Nat)
    (now : Nat) (L : String) (r : URL)
    (hvalid : parseRequestURIOk L = true)
    (huniq : longUrlsUnique st)
    (hmem : r ∈ st.rows) (hL : r.long_url = L) (hcode : r.short_url ≠ "") :
    CreateShortURL cfg st [] entropy now L =
      ⟨.ok r.short_url, st, [], entropy, [.findExisting L]⟩ ∧
    ∀ n, createCalls cfg entropy now L st n = (st, List.replicate n (.ok r.short_url)) := by
  have hfind : FindExistingShortCode st L = r.short_url :=
    FindExistingShortCode_eq huniq hmem hL hcode
  have h1 : CreateShortURL cfg st [] entropy now L =
      ⟨.ok r.short_url, st, [], entropy, [.findExisting L]⟩ := by
    simp [CreateShortURL, hvalid, hfind, hcode]
  refine ⟨h1, fun n => ?_⟩
  induction n with
  | zero => rfl
  | succ n ih => simp [createCalls, h1, ih, List.replicate_succ]

/-- Witness for `createShortURL_idempotent` on a store holding the mapping
`http://a ↦ abc`. -/
theorem createShortURL_idempotent_witness :
    parseRequestURIOk "http://a" = true ∧
    CreateShortURL ⟨0, 0⟩ ⟨[⟨1, "http://a", "abc", 3, 0, 0, none⟩], 2⟩ [] [] 0 "http://a" =
      ⟨.ok "abc", ⟨[⟨1, "http://a", "abc", 3, 0, 0, none⟩], 2⟩, [], [],
        [.findExisting "http://a"]⟩ :=
  ⟨by decide,
   (createShortURL_idempotent ⟨0, 0⟩ ⟨[⟨1, "http://a", "abc", 3, 0, 0, none⟩], 2⟩ [] 0
      "http://a" ⟨1, "http://a", "abc", 3, 0, 0, none⟩ (by decide) (by decide) (by decide)
      rfl (by decide)).1⟩

/-! ## C2 — uniqueness conflict converted into an idempotent read -/

/-- C2: when the placeholder insert hits the `unique_long_url` violation (a
concurrent creator's insert, modelled by the interference entry replacing
the store observed at the insert), the call does not fail: it re-runs the
idempotency lookup against the winner's store and returns the non-empty
code the winning record holds. -/
theorem createShortURL_conflict_fallback (cfg : Service) (st stWin : Store)
    (entropy : List Nat) (now : Nat) (L : String) (r : URL)
    (hvalid : parseRequestURIOk L = true)
    (hmiss : ∀ x ∈ st.rows, x.long_url = L → x.short_url = "")
    (hconf : ∃ x ∈ stWin.rows, x.long_url = L)
    (huniq : longUrlsUnique stWin)
    (hr : r ∈ stWin.rows) (hrL : r.long_url = L) (hrc : r.short_url ≠ "") :
    CreateShortURL cfg st [none, some stWin] entropy now L =
      ⟨.ok r.short_url, stWin, [], entropy,
        [.findExisting L, .insert L, .findExisting L]⟩ := by
  have hfind : FindExistingShortCode st L = "" := FindExistingShortCode_empty hmiss
  have hins : InsertURL stWin L now = .error .uniqueLongUrl := by
    rw [InsertURL, if_pos]
    obtain ⟨x, hx, hxL⟩ := hconf
    exact List.any_eq_true.mpr ⟨x, hx, by simp [hxL]⟩
  have hfind2 : FindExistingShortCode stWin L = r.short_url :=
    FindExistingShortCode_eq huniq hr hrL hrc
  simp [CreateShortURL, hvalid, hfind, hins, hfind2]

/-- Witness for `createShortURL_conflict_fallback`: an empty store at the
lookup, the winner's completed record at the insert. -/
theorem createShortURL_conflict_fallback_witness :
    parseRequestURIOk "http://a" = true ∧
    CreateShortURL ⟨0, 0⟩ ⟨[], 1⟩ [none, some ⟨[⟨1, "http://a", "Kabc", 0, 0, 0, none⟩], 2⟩]
        [] 5 "http://a" =
      ⟨.ok "Kabc", ⟨[⟨1, "http://a", "Kabc", 0, 0, 0, none⟩], 2⟩, [], [],
        [.findExisting "http://a", .insert "http://a", .findExisting "http://a"]⟩ :=
  ⟨by decide,
   createShortURL_conflict_fallback ⟨0, 0⟩ ⟨[], 1⟩ ⟨[⟨1, "http://a", "Kabc", 0, 0, 0, none⟩], 2⟩
     [] 5 "http://a" ⟨1, "http://a", "Kabc", 0, 0, 0, none⟩ (by decide) (by decide)
     ⟨⟨1, "http://a", "Kabc", 0, 0, 0, none⟩, by decide, rfl⟩ (by decide) (by decide) rfl
     (by decide)⟩

/-! ## C5 — fixed-window rate limiter -/

theorem rlLookup_rlSet_self (st : RLStore) (ip : String) (a : IpAccess) :
    rlLookup (rlSet st ip a) ip = some a := by
  induction st with
  | nil => simp [rlSet, rlLookup]
  | cons kv t ih =>
    obtain ⟨k, v⟩ := kv
    by_cases h : (k == ip) = true
    · simp [rlSet, rlLookup, h]
    · simp [rlSet, rlLookup, h, ih]

theorem check_step_admit {st : RLStore} {ip : String} {now c e : Nat}
    (hl : rlLookup st ip = some ⟨c, e⟩) (hnow : now ≤ e)
    (hc : c < MaxRequestsPerIP) :
    CheckAndIncrementAccess st ip now = (true, rlSet st ip ⟨c + 1, e⟩) := by
  rw [CheckAndIncrementAccess, hl]
  have h : ¬ now > e := by omega
  simp [h, hc]

theorem check_step_reject {st : RLStore} {ip : String} {now c e : Nat}
    (hl : rlLookup st ip = some ⟨c, e⟩) (hnow : now ≤ e)
    (hc : ¬ c < MaxRequestsPerIP) :
    CheckAndIncrementAccess st ip now = (false, st) := by
  rw [CheckAndIncrementAccess, hl]
  have h : ¬ now > e := by omega
  simp [h, hc]

theorem runLimiter_in_window (ip : String) :
    ∀ (ts : List Nat) (st : RLStore) (c e : Nat),
      rlLookup st ip = some ⟨c, e⟩ →
      (∀ t ∈ ts, t ≤ e) →
      (runLimiter ip st ts).1.map (fun d => d.allowed) =
        List.replicate (min ts.length (MaxRequestsPerIP - c)) true ++
        List.replicate (ts.length - (MaxRequestsPerIP - c)) false ∧
      ∀ d ∈ (runLimiter ip st ts).1, d.allowed = false →
        d.retryAfter = some "60" ∧ d.status = some 429 := by
  intro ts
  induction ts with
  | nil => intro st c e hl hw; simp [runLimiter]
  | cons t ts ih =>
    intro st c e hl hw
    have hnow : t ≤ e := hw t (List.mem_cons_self t ts)
    by_cases hc : c < MaxRequestsPerIP
    · have hstep := check_step_admit hl hnow hc
      have hl' : rlLookup (rlSet st ip ⟨c + 1, e⟩) ip = some ⟨c + 1, e⟩ :=
        rlLookup_rlSet_self st ip ⟨c + 1, e⟩
      have ihr := ih (rlSet st ip ⟨c + 1, e⟩) (c + 1) e hl'
        (fun t' ht' => hw t' (List.mem_cons_of_mem _ ht'))
      have e1 : min (ts.length + 1) (MaxRequestsPerIP - c) =
          min ts.length (MaxRequestsPerIP - (c + 1)) + 1 := by
        simp only [MaxRequestsPerIP] at hc ⊢; omega
      have e2 : ts.length + 1 - (MaxRequestsPerIP - c) =
          ts.length - (MaxRequestsPerIP - (c + 1)) := by
        simp only [MaxRequestsPerIP] at hc ⊢; omega
      constructor
      · rw [runLimiter]
        simp only [RateLimiterMiddleware, hstep, List.length_cons, List.map_cons]
        rw [ihr.1, e1, e2, List.replicate_succ, List.cons_append]
      · intro d hd hdf
        rw [runLimiter] at hd
        simp only [RateLimiterMiddleware, hstep, List.mem_cons] at hd
        rcases hd with rfl | hd
        · cases hdf
        · exact ihr.2 d hd hdf
    · have hstep := check_step_reject hl hnow hc
      have ihr := ih st c e hl (fun t' ht' => hw t' (List.mem_cons_of_mem _ ht'))
      have e1 : min (ts.length + 1) (MaxRequestsPerIP - c) = 0 := by
        simp only [MaxRequestsPerIP] at hc ⊢; omega
      have e2 : min ts.length (MaxRequestsPerIP - c) = 0 := by
        simp only [MaxRequestsPerIP] at hc ⊢; omega
      have e3 : ts.length + 1 - (MaxRequestsPerIP - c) =
          (ts.length - (MaxRequestsPerIP - c)) + 1 := by
        simp only [MaxRequestsPerIP] at hc ⊢; omega
      constructor
      · rw [runLimiter]
        simp only [RateLimiterMiddleware, hstep, List.length_cons, List.map_cons]
        rw [ihr.1, e1, e2, e3, List.replicate_succ]
        simp
      · intro d hd hdf
        rw [runLimiter] at hd
        simp only [RateLimiterMiddleware, hstep, List.mem_cons] at hd
        rcases hd with rfl | hd
        · exact ⟨rfl, rfl⟩
        · exact ihr.2 d hd hdf

/-- C5: for one client, starting with no window, a burst whose instants all
lie within the 60-second window opened by the first request gets its 1st
through 20th requests admitted and every further request rejected with the
`Retry-After: 60` hint and status 429; and any request arriving with no
window or strictly after the window end gets a fresh window with count 1 and
is admitted. -/
theorem rateLimiter_window (st : RLStore) (ip : String) (t0 : Nat)
    (rest : List Nat)
    (hfresh : rlLookup st ip = none)
    (hwin : ∀ t ∈ rest, t ≤ t0 + WindowDuration) :
    ((runLimiter ip st (t0 :: rest)).1.map (fun d => d.allowed) =
       List.replicate (min (rest.length + 1) MaxRequestsPerIP) true ++
       List.replicate (rest.length + 1 - MaxRequestsPerIP) false ∧
     ∀ d ∈ (runLimiter ip st (t0 :: rest)).1, d.allowed = false →
       d.retryAfter = some "60" ∧ d.status = some 429) ∧
    ∀ (st' : RLStore) (now : Nat),
      (rlLookup st' ip = none ∨ ∃ a, rlLookup st' ip = some a ∧ a.WindowEnd < now) →
      CheckAndIncrementAccess st' ip now =
        (true, rlSet st' ip ⟨1, now + WindowDuration⟩) := by
  have hfreshstep : ∀ (st' : RLStore) (now : Nat),
      (rlLookup st' ip = none ∨ ∃ a, rlLookup st' ip = some a ∧ a.WindowEnd < now) →
      CheckAndIncrementAccess st' ip now =
        (true, rlSet st' ip ⟨1, now + WindowDuration⟩) := by
    intro st' now h
    rcases h with h | ⟨a, ha, hlt⟩
    · rw [CheckAndIncrementAccess, h]
    · rw [CheckAndIncrementAccess, ha]
      simp [hlt]
  refine ⟨?_, hfreshstep⟩
  have h0 := hfreshstep st t0 (.inl hfresh)
  have hl1 : rlLookup (rlSet st ip ⟨1, t0 + WindowDuration⟩) ip =
      some ⟨1, t0 + WindowDuration⟩ :=
    rlLookup_rlSet_self st ip ⟨1, t0 + WindowDuration⟩
  have ihr := runLimiter_in_window ip rest (rlSet st ip ⟨1, t0 + WindowDuration⟩) 1
    (t0 + WindowDuration) hl1 hwin
  have e1 : min (rest.length + 1) MaxRequestsPerIP =
      min rest.length (MaxRequestsPerIP - 1) + 1 := by
    simp only [MaxRequestsPerIP]; omega
  have e2 : rest.length + 1 - MaxRequestsPerIP =
      rest.length - (MaxRequestsPerIP - 1) := by
    simp only [MaxRequestsPerIP]; omega
  constructor
  · rw [runLimiter]
    simp only [RateLimiterMiddleware, h0, List.length_cons, List.map_cons]
    rw [ihr.1, e1, e2, List.replicate_succ, List.cons_append]
  · intro d hd hdf
    rw [runLimiter] at hd
    simp only [RateLimiterMiddleware, h0, List.mem_cons] at hd
    rcases hd with rfl | hd
    · cases hdf
    · exact ihr.2 d hd hdf

/-- Witness for `rateLimiter_window`: 21 requests at instant 0 — the first
20 admitted, the 21st rejected. -/
theorem rateLimiter_window_witness :
    (runLimiter "1.2.3.4" [] (0 :: List.replicate 20 0)).1.map (fun d => d.allowed) =
      List.replicate 20 true ++ List.replicate 1 false := by
  have h := rateLimiter_window [] "1.2.3.4" 0 (List.replicate 20 0) rfl (by decide)
  simpa using h.1.1

/-! ## C3 — round-trip resolution and click accounting -/

theorem ite_track_short_url (u : URL) (C : String) (t : Nat) :
    (if u.short_url == C then trackRow u t else u).short_url = u.short_url := by
  split <;> rfl

theorem applyTracks_cons (u : URL) (t : Nat) (ts : List Nat) :
    applyTracks u (t :: ts) = applyTracks (trackRow u t) ts := rfl

theorem applyTracks_click (u : URL) (ts : List Nat) :
    (applyTracks u ts).click_count = u.click_count + ts.length := by
  induction ts generalizing u with
  | nil => simp [applyTracks]
  | cons t ts ih =>
    rw [applyTracks_cons, ih]
    simp [trackRow]
    omega

theorem applyTracks_last (u : URL) (ts : List Nat) (h : ts ≠ []) :
    (applyTracks u ts).last_accessed_at = ts.getLast? := by
  induction ts generalizing u with
  | nil => cases h rfl
  | cons t ts ih =>
    cases ts with
    | nil => simp [applyTracks, trackRow]
    | cons t' ts' =>
      rw [applyTracks_cons, ih _ (by simp), List.getLast?_cons_cons]

theorem GetLongURL_step {st : Store} {r : URL} {C : String} (now : Nat)
    (hu : shortCodesUnique st) (hmem : r ∈ st.rows) (hC : r.short_url = C) :
    GetLongURL st now C =
      (.ok r.long_url,
       ⟨st.rows.map (fun u => if u.short_url == C then trackRow u now else u),
        st.nextId⟩) := by
  have hfind := find?_of_shortUrl hu hmem hC
  simp [GetLongURL, LookupAndTrack, hfind]

theorem resolveCalls_run (C : String) :
    ∀ (ts : List Nat) (st : Store) (r : URL),
      shortCodesUnique st → r ∈ st.rows → r.short_url = C →
      (resolveCalls C st ts).1 = ts.map (fun _ => .ok r.long_url) ∧
      (resolveCalls C st ts).2.rows =
        st.rows.map (fun u => if u.short_url == C then applyTracks u ts else u) := by
  intro ts
  induction ts with
  | nil =>
    intro st r hu hmem hC
    refine ⟨by simp [resolveCalls], ?_⟩
    simp [resolveCalls, applyTracks]
  | cons t ts ih =>
    intro st r hu hmem hC
    have hstep := GetLongURL_step t hu hmem hC
    have hu1 : shortCodesUnique
        (⟨st.rows.map (fun u => if u.short_url == C then trackRow u t else u),
          st.nextId⟩ : Store) := by
      rw [shortCodesUnique] at hu ⊢
      rw [List.pairwise_map]
      exact hu.imp (fun hab => by
        rw [ite_track_short_url, ite_track_short_url]; exact hab)
    have hmem1 : trackRow r t ∈
        (⟨st.rows.map (fun u => if u.short_url == C then trackRow u t else u),
          st.nextId⟩ : Store).rows :=
      List.mem_map.mpr ⟨r, hmem, by simp [hC]⟩
    have ihr := ih _ (trackRow r t) hu1 hmem1 hC
    constructor
    · simp only [resolveCalls, hstep]
      rw [ihr.1]
      simp [trackRow]
    · simp only [resolveCalls, hstep]
      rw [ihr.2]
      simp only [List.map_map]
      apply List.map_congr_left
      intro u _
      by_cases h : (u.short_url == C) = true
      · simp only [Function.comp, h, if_pos]
        have hs : (trackRow u t).short_url == C := h
        simp [hs, applyTracks_cons]
      · simp [Function.comp, h]

/-- C3: for a record with code `C` and long URL `L` (under the store's code
uniqueness constraint), each `getLongURL(C)` resolution returns `L` via the
single atomic lookup-and-track update; resolving at instants `ts` increments
that record's `click_count` by exactly `ts.length` (monotonically, one per
resolution) and leaves `last_accessed_at` at the most recent instant; no
other row changes. -/
theorem getLongURL_roundtrip_tracking (st : Store) (C L : String) (r : URL)
    (ts : List Nat)
    (huniq : shortCodesUnique st) (hmem : r ∈ st.rows)
    (hC : r.short_url = C) (hL : r.long_url = L) :
    (resolveCalls C st ts).1 = ts.map (fun _ => .ok L) ∧
    (resolveCalls C st ts).2.rows =
      st.rows.map (fun u => if u.short_url == C then applyTracks u ts else u) ∧
    (applyTracks r ts).click_count = r.click_count + ts.length ∧
    (ts ≠ [] → (applyTracks r ts).last_accessed_at = ts.getLast?) := by
  have h := resolveCalls_run C ts st r huniq hmem hC
  exact ⟨hL ▸ h.1, h.2, applyTracks_click r ts,
    fun hne => applyTracks_last r ts hne⟩

/-- Witness for `getLongURL_roundtrip_tracking`: two resolutions of `abc`
starting from click count 3 end at click count 5 with the last access at
instant 9. -/
theorem getLongURL_roundtrip_tracking_witness :
    (resolveCalls "abc" ⟨[⟨1, "http://a", "abc", 3, 0, 0, none⟩], 2⟩ [5, 9]).1 =
      [.ok "http://a", .ok "http://a"] ∧
    (applyTracks ⟨1, "http://a", "abc", 3, 0, 0, none⟩ [5, 9]).click_count = 5 ∧
    (applyTracks ⟨1, "http://a", "abc", 3, 0, 0, none⟩ [5, 9]).last_accessed_at =
      some 9 := by
  have h := getLongURL_roundtrip_tracking ⟨[⟨1, "http://a", "abc", 3, 0, 0, none⟩], 2⟩
    "abc" "http://a" ⟨1, "http://a", "abc", 3, 0, 0, none⟩ [5, 9]
    (by decide) (by decide) rfl rfl
  exact ⟨h.1, by simpa using h.2.2.1, h.2.2.2 (by simp)⟩

/-! ## C4 — collision-retry exhaustion -/

theorem candidate_shift (dl : Nat) (ent : List Nat) (k : Nat) :
    candidate dl (ent.drop dl) k = candidate dl ent (k + 1) := by
  rw [candidate, candidate, List.drop_drop]
  have h : dl + k * dl = (k + 1) * dl := by ring
  rw [h]

theorem InsertURL_ok {st : Store} {L : String} (now : Nat)
    (hnew : ∀ x ∈ st.rows, x.long_url ≠ L)
    (hnoorph : ∀ x ∈ st.rows, x.short_url ≠ "") :
    InsertURL st L now =
      .ok (st.nextId,
        ⟨st.rows ++ [⟨st.nextId, L, "", 0, now, now, none⟩], st.nextId + 1⟩) := by
  have h1 : ¬ (st.rows.any fun r => r.long_url == L) = true := by
    simp only [List.any_eq_true, not_exists, not_and]
    intro x hx
    simp [hnew x hx]
  have h2 : ¬ (st.rows.any fun r => r.short_url == "") = true := by
    simp only [List.any_eq_true, not_exists, not_and]
    intro x hx
    simp [hnoorph x hx]
  rw [InsertURL, if_neg h1, if_neg h2]

theorem retryLoop_exhausts (dl : Nat) :
    ∀ (n : Nat) (st : Store) (ent : List Nat) (ops : List RepoOp),
      n * dl ≤ ent.length →
      (∀ k < n, IsShortCodeUnique st (candidate dl ent k) = false) →
      retryLoop dl n ⟨st, [], ent, ops⟩ =
        (.exhausted,
         ⟨st, [], ent.drop (n * dl),
          ops ++ (List.range n).map
            (fun k => .isUnique (candidate dl ent k))⟩) := by
  intro n
  induction n with
  | zero => intro st ent ops _ _; simp [retryLoop]
  | succ n ih =>
    intro st ent ops hlen hcoll
    have hsm : (n + 1) * dl = n * dl + dl := Nat.succ_mul n dl
    have hgen : generateRandomCode dl ent = some (candidate dl ent 0, ent.drop dl) := by
      rw [generateRandomCode, if_neg (by omega)]
      rw [candidate]
      simp
    have hc0 := hcoll 0 (Nat.succ_pos n)
    have ihr := ih st (ent.drop dl)
      (ops ++ [.isUnique (candidate dl ent 0)])
      (by rw [List.length_drop]; omega)
      (by
        intro k hk
        rw [candidate_shift]
        exact hcoll (k + 1) (by omega))
    simp only [retryLoop, hgen, obs_nil, hc0]
    rw [if_neg (by simp [hc0])]
    rw [ihr]
    refine congrArg _ ?_
    refine congrArg₂ _ ?_ ?_
    · rw [List.drop_drop]
      have h2 : dl + n * dl = (n + 1) * dl := by ring
      rw [h2]
    · rw [List.range_succ_eq_map, List.map_cons, List.map_map]
      rw [List.append_assoc]
      refine congrArg _ ?_
      rw [List.singleton_append]
      refine congrArg _ ?_
      apply List.map_congr_left
      intro k _
      simp only [Function.comp]
      rw [candidate_shift]

/-- C4: with a new long URL, no orphan in the way, enough entropy and every
one of the `effMaxRetries` candidates colliding with an existing code, the
call fails with `CapacityExhausted`, having performed the lookup, the
placeholder insert and exactly `effMaxRetries` uniqueness probes — and the
placeholder row for `L` remains in the store with an empty code. -/
theorem createShortURL_capacity_exhausted (cfg : Service) (st : Store)
    (entropy : List Nat) (now : Nat) (L : String)
    (hvalid : parseRequestURIOk L = true)
    (hnew : ∀ x ∈ st.rows, x.long_url ≠ L)
    (hnoorph : ∀ x ∈ st.rows, x.short_url ≠ "")
    (hent : effMaxRetries cfg * effDesiredLength cfg ≤ entropy.length)
    (hcoll : ∀ k < effMaxRetries cfg,
      ∃ x ∈ st.rows, x.short_url = candidate (effDesiredLength cfg) entropy k) :
    CreateShortURL cfg st [] entropy now L =
      ⟨.error .capacityExhausted,
       ⟨st.rows ++ [⟨st.nextId, L, "", 0, now, now, none⟩], st.nextId + 1⟩,
       [], entropy.drop (effMaxRetries cfg * effDesiredLength cfg),
       [.findExisting L, .insert L] ++
         (List.range (effMaxRetries cfg)).map
           (fun k => .isUnique (candidate (effDesiredLength cfg) entropy k))⟩ ∧
    (⟨st.nextId, L, "", 0, now, now, none⟩ : URL) ∈
      (CreateShortURL cfg st [] entropy now L).store.rows ∧
    (⟨st.nextId, L, "", 0, now, now, none⟩ : URL).short_url = "" := by
  have hfind : FindExistingShortCode st L = "" :=
    FindExistingShortCode_empty (fun x hx hL => absurd hL (hnew x hx))
  have hins := @InsertURL_ok st L now hnew hnoorph
  have hloop := retryLoop_exhausts (effDesiredLength cfg) (effMaxRetries cfg)
    ⟨st.rows ++ [⟨st.nextId, L, "", 0, now, now, none⟩], st.nextId + 1⟩
    entropy [.findExisting L, .insert L] hent
    (by
      intro k hk
      obtain ⟨x, hx, hxc⟩ := hcoll k hk
      simp only [IsShortCodeUnique, Bool.not_eq_false', List.any_eq_true]
      exact ⟨x, List.mem_append_left _ hx, by simp [hxc]⟩)
  have hmain : CreateShortURL cfg st [] entropy now L =
      ⟨.error .capacityExhausted,
       ⟨st.rows ++ [⟨st.nextId, L, "", 0, now, now, none⟩], st.nextId + 1⟩,
       [], entropy.drop (effMaxRetries cfg * effDesiredLength cfg),
       [.findExisting L, .insert L] ++
         (List.range (effMaxRetries cfg)).map
           (fun k => .isUnique (candidate (effDesiredLength cfg) entropy k))⟩ := by
    simp [CreateShortURL, hvalid, hfind, hins, hloop]
  refine ⟨hmain, ?_, rfl⟩
  rw [hmain]
  exact List.mem_append_right _ (List.mem_singleton_self _)

/-- Witness for `createShortURL_capacity_exhausted`: five zero-byte draws all
produce `0000000000`, which an existing record already holds. -/
theorem createShortURL_capacity_exhausted_witness :
    (CreateShortURL ⟨0, 0⟩ ⟨[⟨1, "http://b", "0000000000", 0, 0, 0, none⟩], 2⟩ []
        (List.replicate 50 0) 5 "http://a").outcome = .error .capacityExhausted ∧
    (⟨2, "http://a", "", 0, 5, 5, none⟩ : URL) ∈
      (CreateShortURL ⟨0, 0⟩ ⟨[⟨1, "http://b", "0000000000", 0, 0, 0, none⟩], 2⟩ []
        (List.replicate 50 0) 5 "http://a").store.rows := by
  have h := createShortURL_capacity_exhausted ⟨0, 0⟩
    ⟨[⟨1, "http://b", "0000000000", 0, 0, 0, none⟩], 2⟩ (List.replicate 50 0) 5 "http://a"
    (by decide) (by decide) (by decide) (by decide) (by decide)
  exact ⟨by rw [h.1], h.2.1⟩

/-! ## C7 — pagination -/

theorem normPage_pos (q : Option Int) : 1 ≤ normPage q := by
  cases q with
  | none => simp [normPage]
  | some p => simp only [normPage]; split <;> omega

theorem normLimit_pos (q : Option Int) : 1 ≤ normLimit q := by
  cases q with
  | none => simp [normLimit]
  | some l => simp only [normLimit]; split <;> omega

theorem ceil_zero_iff (n m : Nat) (hm : 1 ≤ m) : (n + m - 1) / m = 0 ↔ n = 0 := by
  constructor
  · intro h
    by_contra hn
    have h1 : m ≤ n + m - 1 := by omega
    have := (Nat.one_le_div_iff (by omega)).mpr h1
    omega
  · intro h
    subst h
    exact Nat.div_eq_of_lt (by omega)

theorem ceil_pred_mul_lt (n m : Nat) (hm : 1 ≤ m) (hn : 1 ≤ n) :
    ((n + m - 1) / m - 1) * m < n := by
  have h1 : (n + m - 1) / m * m ≤ n + m - 1 := Nat.div_mul_le_self _ _
  have h2 : ((n + m - 1) / m - 1) * m = (n + m - 1) / m * m - m :=
    Nat.sub_one_mul _ _
  omega

theorem repoList_ok (st : Store) (l off : Int) (hl : 0 ≤ l) (hoff : 0 ≤ off) :
    RepoListURLs st l off =
      .ok (((st.rows.insertionSort createdDesc).drop off.toNat).take l.toNat) := by
  rw [RepoListURLs, if_neg]
  simp only [Bool.or_eq_true, decide_eq_true_eq, not_or, not_lt]
  omega

theorem urlsSlice_len (st : Store) (l off : Int) (hl : 1 ≤ l) :
    ((((st.rows.insertionSort createdDesc).drop off.toNat).take l.toNat).length : Int)
      ≤ l := by
  have h1 : (((st.rows.insertionSort createdDesc).drop off.toNat).take l.toNat).length
      ≤ l.toNat := by
    rw [List.length_take]; omega
  calc ((((st.rows.insertionSort createdDesc).drop off.toNat).take l.toNat).length : Int)
      ≤ (l.toNat : Int) := by exact_mod_cast h1
    _ = l := Int.toNat_of_nonneg (by omega)

theorem urlsSlice_sorted (st : Store) (a b : Nat) :
    (((st.rows.insertionSort createdDesc).drop a).take b).Pairwise createdDesc :=
  List.Pairwise.sublist ((List.take_sublist _ _).trans (List.drop_sublist _ _))
    (List.sorted_insertionSort createdDesc st.rows)

theorem ServiceListURLs_spec (st : Store) (p l : Int) (hp : 1 ≤ p) (hl : 1 ≤ l)
    (resp : URLListResponse) (hok : ServiceListURLs st p l = .ok resp) :
    resp.Limit = l ∧
    resp.TotalCount = (st.rows.length : Int) ∧
    ((resp.URLs.length : Int) ≤ l ∧ resp.URLs.Pairwise createdDesc) ∧
    resp.TotalPages = max 1 ((resp.TotalCount + l - 1) / l) ∧
    (p > resp.TotalPages → 0 < resp.TotalCount →
      resp.Page = resp.TotalPages ∧ resp.URLs ≠ []) := by
  have hS : (st.rows.insertionSort createdDesc).length = st.rows.length :=
    (List.perm_insertionSort createdDesc st.rows).length_eq
  set n := st.rows.length with hn
  set m := l.toNat with hm
  have hm1 : 1 ≤ m := by omega
  have hlm : l = (m : Int) := (Int.toNat_of_nonneg (by omega)).symm
  set q := (n + m - 1) / m with hq
  have htp : ((n : Int) + l - 1) / l = (q : Int) := by
    have h1 : ((n + m - 1 : Nat) : Int) = (n : Int) + (m : Int) - 1 := by
      rw [Nat.cast_sub (by omega)]
      push_cast
      ring
    rw [hlm, ← h1, ← Int.ofNat_ediv]
  rw [ServiceListURLs] at hok
  simp only [GetTotalURLCount, ← hn] at hok
  split at hok
  next h0 =>
    have hq0 : q = 0 := by
      rw [htp] at h0
      exact_mod_cast h0
    have hn0 : n = 0 := (ceil_zero_iff n m hm1).mp hq0
    rw [repoList_ok st l ((p - 1) * l) (by omega)
      (mul_nonneg (by omega) (by omega))] at hok
    cases hok
    refine ⟨rfl, by rw [hn], ⟨urlsSlice_len st l _ hl, urlsSlice_sorted st _ _⟩, ?_, ?_⟩
    · show (1 : Int) = max 1 (((n : Int) + l - 1) / l)
      rw [htp, hq0]
      simp
    · intro _ hcnt
      rw [hn0] at hcnt
      simp at hcnt
  next h0 =>
    have hq1 : 1 ≤ q := by
      rcases Nat.eq_zero_or_pos q with h | h
      · exfalso
        apply h0
        rw [htp, h]
        simp
      · exact h
    have hn1 : 1 ≤ n := by
      by_contra hc
      have hz : n = 0 := by omega
      have := (ceil_zero_iff n m hm1).mpr hz
      omega
    split at hok
    next h1 =>
      rw [htp] at hok h1
      have hoff : ((q : Int) - 1) * l = (((q - 1) * m : Nat) : Int) := by
        rw [hlm, Nat.cast_mul, Nat.cast_sub (by omega)]
        push_cast
        ring
      rw [hoff, repoList_ok st l _ (by omega) (Int.natCast_nonneg _)] at hok
      cases hok
      have hnonempty :
          (((st.rows.insertionSort createdDesc).drop
              ((((q - 1) * m : Nat) : Int)).toNat).take l.toNat) ≠ [] := by
        apply List.ne_nil_of_length_pos
        rw [List.length_take, List.length_drop, hS, Int.toNat_natCast, ← hm]
        have h2 := ceil_pred_mul_lt n m hm1 hn1
        rw [← hq] at h2
        omega
      refine ⟨rfl, by rw [hn], ⟨urlsSlice_len st l _ hl, urlsSlice_sorted st _ _⟩, ?_, ?_⟩
      · show (q : Int) = max 1 (((n : Int) + l - 1) / l)
        rw [htp]
        have hc : (1 : Int) ≤ (q : Int) := by exact_mod_cast hq1
        omega
      · intro _ _
        exact ⟨rfl, hnonempty⟩
    next h1 =>
      rw [repoList_ok st l ((p - 1) * l) (by omega)
        (mul_nonneg (by omega) (by omega))] at hok
      cases hok
      refine ⟨rfl, by rw [hn], ⟨urlsSlice_len st l _ hl, urlsSlice_sorted st _ _⟩, ?_, ?_⟩
      · show ((n : Int) + l - 1) / l = max 1 (((n : Int) + l - 1) / l)
        rw [htp]
        have hc : (1 : Int) ≤ (q : Int) := by exact_mod_cast hq1
        omega
      · intro hgt _
        exact absurd hgt h1

/-- C7: with `page` and `limit` defaulting to 1 and 10 when absent or
non-positive, `listURLs` returns at most `limit` records ordered
newest-created first, `total_pages` equals the ceiling of
`total_count / limit` (`(total_count + limit - 1) / limit`) floored at 1 even
for an empty store, and a requested page beyond `total_pages` is clamped to
the last page, which is non-empty whenever records exist. -/
theorem listURLs_pagination (st : Store) (domain : String)
    (pageQ limitQ : Option Int) (resp : URLListResponse)
    (hok : HandlerListURLs st domain pageQ limitQ = .ok resp) :
    (normPage none = 1 ∧ normLimit none = 10 ∧
     ∀ v : Int, v < 1 → normPage (some v) = 1 ∧ normLimit (some v) = 10) ∧
    resp.Limit = normLimit limitQ ∧
    (resp.URLs.length : Int) ≤ normLimit limitQ ∧
    resp.URLs.Pairwise createdDesc ∧
    resp.TotalPages =
      max 1 ((resp.TotalCount + normLimit limitQ - 1) / normLimit limitQ) ∧
    (normPage pageQ > resp.TotalPages → 0 < resp.TotalCount →
      resp.Page = resp.TotalPages ∧ resp.URLs ≠ []) := by
  rw [HandlerListURLs] at hok
  cases hsvc : ServiceListURLs st (normPage pageQ) (normLimit limitQ) with
  | error e => rw [hsvc] at hok; cases hok
  | ok resp0 =>
    rw [hsvc] at hok
    cases hok
    have h := ServiceListURLs_spec st (normPage pageQ) (normLimit limitQ)
      (normPage_pos pageQ) (normLimit_pos limitQ) resp0 hsvc
    refine ⟨⟨rfl, rfl, fun v hv =>
      ⟨by simp [normPage, hv], by simp [normLimit, hv]⟩⟩, ?_, ?_, ?_, ?_, ?_⟩
    · exact h.1
    · simpa using h.2.2.1.1
    · rw [List.pairwise_map]
      exact (h.2.2.1.2).imp (fun hab => hab)
    · exact h.2.2.2.1
    · intro hgt hcnt
      obtain ⟨hpage, hne⟩ := h.2.2.2.2 hgt hcnt
      exact ⟨hpage, by simpa using hne⟩

/-- Witness for `listURLs_pagination`: three records, limit 2, requested
page 9 — clamped to the last page (2) with one record on it. -/
theorem listURLs_pagination_witness :
    HandlerListURLs ⟨[⟨1, "http://u1", "c1", 0, 0, 0, none⟩,
        ⟨2, "http://u2", "c2", 0, 1, 1, none⟩,
        ⟨3, "http://u3", "c3", 0, 2, 2, none⟩], 4⟩ "d/" (some 9) (some 2) =
      .ok ⟨[⟨1, "http://u1", "d/c1", 0, 0, 0, none⟩], 3, 2, 2, 2⟩ ∧
    (⟨[⟨1, "http://u1", "d/c1", 0, 0, 0, none⟩], 3, 2, 2, 2⟩ :
        URLListResponse).Page =
      (⟨[⟨1, "http://u1", "d/c1", 0, 0, 0, none⟩], 3, 2, 2, 2⟩ :
        URLListResponse).TotalPages ∧
    (⟨[⟨1, "http://u1", "d/c1", 0, 0, 0, none⟩], 3, 2, 2, 2⟩ :
        URLListResponse).URLs ≠ [] := by
  have heq : HandlerListURLs ⟨[⟨1, "http://u1", "c1", 0, 0, 0, none⟩,
      ⟨2, "http://u2", "c2", 0, 1, 1, none⟩,
      ⟨3, "http://u3", "c3", 0, 2, 2, none⟩], 4⟩ "d/" (some 9) (some 2) =
      .ok ⟨[⟨1, "http://u1", "d/c1", 0, 0, 0, none⟩], 3, 2, 2, 2⟩ := by decide
  have h := listURLs_pagination ⟨[⟨1, "http://u1", "c1", 0, 0, 0, none⟩,
      ⟨2, "http://u2", "c2", 0, 1, 1, none⟩,
      ⟨3, "http://u3", "c3", 0, 2, 2, none⟩], 4⟩ "d/" (some 9) (some 2)
    ⟨[⟨1, "http://u1", "d/c1", 0, 0, 0, none⟩], 3, 2, 2, 2⟩ heq
  obtain ⟨hpage, hne⟩ := h.2.2.2.2.2 (by decide) (by decide)
  exact ⟨heq, hpage, hne⟩

/-! ## C8 — candidate code shape -/

theorem generateRandomCode_some {len : Nat} {ent : List Nat} {code : String}
    {rest : List Nat} (h : generateRandomCode len ent = some (code, rest)) :
    code = String.mk ((ent.take len).map base62Char) ∧ len ≤ ent.length := by
  rw [generateRandomCode] at h
  split at h
  next => cases h
  next hcond => cases h; exact ⟨rfl, by omega⟩

theorem codeShape {len : Nat} {ent : List Nat} (hlen : len ≤ ent.length) :
    (String.mk ((ent.take len).map base62Char)).length = len ∧
    ∀ c ∈ (ent.take len).map base62Char, c ∈ base62Chars := by
  constructor
  · show ((ent.take len).map base62Char).length = len
    rw [List.length_map, List.length_take]
    omega
  · intro c hc
    obtain ⟨b, _, rfl⟩ := List.mem_map.mp hc
    exact base62Char_mem b

theorem retryLoop_found (dl : Nat) :
    ∀ (n : Nat) (ls : LoopState) (code : String),
      (retryLoop dl n ls).1 = .found code →
      code.length = dl ∧ ∀ c ∈ code.data, c ∈ base62Chars := by
  intro n
  induction n with
  | zero => intro ls code h; simp [retryLoop] at h
  | succ n ih =>
    intro ls code h
    simp only [retryLoop] at h
    cases hgen : generateRandomCode dl ls.entropy with
    | none => rw [hgen] at h; cases h
    | some p =>
      rw [hgen] at h
      obtain ⟨hcode, hlen⟩ :=
        @generateRandomCode_some dl ls.entropy p.1 p.2 (by rw [hgen])
      simp only [] at h
      split at h
      · cases h
        rw [hcode]
        exact ⟨(codeShape hlen).1, (codeShape hlen).2⟩
      · exact ih _ _ h

theorem FindExistingShortCode_cases (st : Store) (L : String) :
    FindExistingShortCode st L = "" ∨
    ∃ r ∈ st.rows, FindExistingShortCode st L = r.short_url ∧ r.short_url ≠ "" := by
  rw [FindExistingShortCode]
  cases hf : st.rows.find? (fun x => x.long_url == L && x.short_url != "") with
  | none => exact .inl rfl
  | some r =>
    refine .inr ⟨r, List.mem_of_find?_eq_some hf, rfl, ?_⟩
    have hpred := List.find?_some hf
    simp only [Bool.and_eq_true, bne_iff_ne] at hpred
    exact hpred.2

/-- C8 (amended): the generator maps each drawn byte to the 62-symbol
alphabet via modulo, producing exactly `len` characters; and every code a
successful (sequential) `createShortURL` returns is either 1–10 characters
over that alphabet, or — in the insert-conflict fallback, when the winning
record has not yet been assigned its code — the empty string. -/
theorem createShortURL_code_shape (cfg : Service) (st : Store)
    (entropy : List Nat) (now : Nat) (L code : String)
    (hwf : storeCodesWF st)
    (hok : (CreateShortURL cfg st [] entropy now L).outcome = .ok code) :
    (∀ (len : Nat) (bytes : List Nat), len ≤ bytes.length →
       generateRandomCode len bytes =
         some (String.mk ((bytes.take len).map base62Char), bytes.drop len) ∧
       (String.mk ((bytes.take len).map base62Char)).length = len ∧
       ∀ c ∈ (bytes.take len).map base62Char, c ∈ base62Chars) ∧
    (code = "" ∨
     (1 ≤ code.length ∧ code.length ≤ MaxShortCodeLength ∧
      ∀ c ∈ code.data, c ∈ base62Chars)) := by
  constructor
  · intro len bytes hlen
    refine ⟨?_, (codeShape hlen).1, (codeShape hlen).2⟩
    rw [generateRandomCode, if_neg (by omega)]
  · rw [CreateShortURL] at hok
    simp only [obs_nil] at hok
    split at hok
    · cases hok
    · split at hok
      next hex =>
        -- idempotency hit: the code comes from a stored completed record
        simp only [Except.ok.injEq] at hok
        rcases FindExistingShortCode_cases st L with hc | ⟨r, hr, hceq, hcne⟩
        · rw [hc] at hex
          simp at hex
        · right
          rw [← hok, hceq]
          exact hwf r hr hcne
      next hex =>
        split at hok
        next e heq =>
          split at hok
          · -- unique_long_url conflict: fallback re-lookup
            simp only [Except.ok.injEq] at hok
            rcases FindExistingShortCode_cases st L with hc | ⟨r, hr, hceq, hcne⟩
            · left; rw [← hok, hc]
            · right
              rw [← hok, hceq]
              exact hwf r hr hcne
          · cases hok
        next ins heq =>
          split at hok
          next hloop => cases hok
          next hloop => cases hok
          next c hloop =>
            split at hok
            next hlong => cases hok
            next hlong =>
              split at hok
              next e hupd => cases hok
              next st3 hupd =>
                simp only [Except.ok.injEq] at hok
                obtain ⟨hclen, hcchars⟩ := retryLoop_found _ _ _ _ hloop
                right
                rw [← hok]
                refine ⟨?_, by omega, hcchars⟩
                rw [hclen]
                exact effDesiredLength_pos cfg

/-- C8 counterexample: with an orphan placeholder row for the same long URL
(left by an exhausted or failed earlier creation), `createShortURL`
"succeeds" with the empty string — a code of length 0, not 1–10 characters
over the alphabet. -/
theorem createShortURL_empty_code_success :
    (CreateShortURL ⟨0, 0⟩ ⟨[⟨1, "http://a", "", 0, 0, 0, none⟩], 2⟩ [] [] 0
        "http://a").outcome = .ok "" ∧
    ¬ 1 ≤ ("" : String).length := by decide

/-- Witness for `createShortURL_code_shape`: a fresh creation returns the
10-character alphabet code `1111111111`. -/
theorem createShortURL_code_shape_witness :
    1 ≤ ("1111111111" : String).length ∧
    ("1111111111" : String).length ≤ MaxShortCodeLength ∧
    ∀ c ∈ ("1111111111" : String).data, c ∈ base62Chars := by
  have h := createShortURL_code_shape ⟨0, 0⟩ ⟨[], 1⟩ (List.replicate 10 1) 0
    "http://a" "1111111111" (by intro x hx; simp at hx) (by decide)
  rcases h.2 with h0 | h1
  · exact absurd h0 (by decide)
  · exact h1
